import Mathlib

/-!
Verification development for the best-execution quote router of the
venus-optimizer repository (`server/src/services/swap.ts`).

The TypeScript source is shallowly embedded below.  Network-dependent venue
evaluations (`router.getAmountsOut`, v3 quoter calls) are modelled as explicit
function parameters (`f`, `fS`, `fM`) mapping a route and a raw input amount to
a raw output amount, with `0` standing for "failed or zero output" exactly as
in the source, which maps every failure to `0n`.  BigInt arithmetic is `Nat`
arithmetic (all quantities involved are non-negative).  JS strings are Lean
strings; `toLowerCase`/`toUpperCase` are modelled on the ASCII range, which
covers every string the router manipulates (hex addresses and token symbols).
-/

/-- ASCII lowercase conversion of one character, modelling
`String.prototype.toLowerCase` on the ASCII range. -/
def lowerChar (c : Char) : Char :=
  if 65 ≤ c.toNat ∧ c.toNat ≤ 90 then Char.ofNat (c.toNat + 32) else c

/-- ASCII uppercase conversion of one character, modelling
`String.prototype.toUpperCase` on the ASCII range. -/
def upperChar (c : Char) : Char :=
  if 97 ≤ c.toNat ∧ c.toNat ≤ 122 then Char.ofNat (c.toNat - 32) else c

/-- `s.toLowerCase()` of the source, on ASCII strings. -/
def lowerStr (s : String) : String :=
  String.mk (s.data.map lowerChar)

/-- `s.toUpperCase()` of the source, on ASCII strings. -/
def upperStr (s : String) : String :=
  String.mk (s.data.map upperChar)

/-- Helper for `uniqueAddresses`: the source keeps element `i` iff its
lowercase form differs from the lowercase form of the ORIGINAL element `i-1`
(`pathArr.filter((addr, i) => i === 0 || addr.toLowerCase() !==
pathArr[i-1]!.toLowerCase())`).  `prev` is the original predecessor. -/
def uaAux (prev : String) : List String → List String
  | [] => []
  | a :: rest =>
    if lowerStr a = lowerStr prev then uaAux a rest else a :: uaAux a rest

/-- `uniqueAddresses` from swap.ts (lines 143-145). -/
def uniqueAddresses : List String → List String
  | [] => []
  | a :: rest => a :: uaAux a rest

/-- Default WBNB address (swap.ts line 31, env var absent). -/
def DEFAULT_WBNB : String := "0xBB4CdB9CBd36B01bD1cBaEBF2De08d9173bc095c"

/-- The static `KNOWN_TOKENS` table of swap.ts (lines 33-44): uppercase symbol
to BSC address.  Note `BNB` aliases `WBNB` and `BTC` aliases `BTCB`. -/
def KNOWN_TOKENS (s : String) : Option String :=
  if s = "WBNB" then some DEFAULT_WBNB
  else if s = "BNB" then some DEFAULT_WBNB
  else if s = "BUSD" then some "0xe9e7CEA3DedcA5984780Bafc599bD69ADd087D56"
  else if s = "USDT" then some "0x55d398326f99059fF775485246999027B3197955"
  else if s = "USDC" then some "0x8ac76a51cc950d9822d68b83fe1ad97b32cd580d"
  else if s = "BTCB" then some "0x7130d2a12b9bcbfae4f2634d864a1ee1ce3ead9c"
  else if s = "BTC" then some "0x7130d2a12b9bcbfae4f2634d864a1ee1ce3ead9c"
  else if s = "ETH" then some "0x2170Ed0880ac9A755fd29B2688956BD959F933F8"
  else if s = "CAKE" then some "0x0E09Fabb73Bd3Ade0a17ECC321fD13a19e81cE82"
  else none

/-- `getKnownTokenAddress` of swap.ts (lines 111-118).  The `ADDR_<SYMBOL>`
environment override is modelled by the `env` parameter (already restricted to
well-formed addresses by the source's regex check). -/
def getKnownTokenAddress (env : String → Option String) (symbol : String) : Option String :=
  match env (upperStr symbol) with
  | some a => some a
  | none => KNOWN_TOKENS (upperStr symbol)

/-- Default preferred intermediates (`getPreferredIntermediates`, line 156). -/
def defaultIntermediateSymbols : List String := ["WBNB", "USDT", "USDC"]

/-- `resolveSymbolsToAddresses` of swap.ts (lines 159-166): keeps only the
symbols that resolve. -/
def resolveSymbolsToAddresses (env : String → Option String) (symbols : List String) :
    List String :=
  symbols.filterMap (getKnownTokenAddress env)

/-- `Math.max(2, Math.min(4, Number(params.maxHops ?? 3)))` (line 230). -/
def clampMaxHops (mx? : Option ℕ) : ℕ :=
  max 2 (min 4 (mx?.getD 3))

/-- `addPath` inside `quotePcsV2BestExactIn` (lines 232-237): deduplicate the
path and keep it iff it has ≥ 2 assets and respects the hop policy.  Returns
the cleaned path that would be pushed, or `none`. -/
def addPathV2 (mh : Bool) (maxHops : ℕ) (p : List String) : Option (List String) :=
  let clean := uniqueAddresses p
  if 2 ≤ clean.length ∧ (if mh then clean.length ≤ maxHops else clean.length = 2)
  then some clean else none

/-- The ordered pairs of distinct positions of `l`, in the nested-loop order of
the source (`for i ... for j ... if (i === j) continue`). -/
def orderedPairs (l : List String) : List (String × String) :=
  l.enum.flatMap (fun im =>
    l.enum.filterMap (fun jm => if im.1 = jm.1 then none else some (im.2, jm.2)))

/-- The `candidatePaths` array built by `quotePcsV2BestExactIn`
(lines 231-252): the direct path, then (multi-hop only) one-intermediate paths
and two-intermediate paths over ordered pairs of distinct intermediates, each
filtered through `addPath`. -/
def candidatePathsV2 (fromAddr toAddr : String) (mh : Bool) (maxHops : ℕ)
    (inter : List String) : List (List String) :=
  ([[fromAddr, toAddr]]
    ++ (if mh then
          inter.map (fun m => [fromAddr, m, toAddr])
          ++ (orderedPairs inter).map (fun ij => [fromAddr, ij.1, ij.2, toAddr])
        else [])).filterMap (addPathV2 mh maxHops)

/-- One hex digit, lowercase, as produced by `Number.prototype.toString(16)`. -/
def hexDigitChar (n : ℕ) : Char :=
  if n < 10 then Char.ofNat (48 + n) else Char.ofNat (87 + n)

/-- Numeric value of a lowercase hex digit character. -/
def hexCharVal (c : Char) : ℕ :=
  if c.toNat ≤ 57 then c.toNat - 48 else c.toNat - 87

/-- Value of a big-endian list of lowercase hex digit characters. -/
def hexListToNat (l : List Char) : ℕ :=
  l.foldl (fun acc c => acc * 16 + hexCharVal c) 0

/-- Fuel-driven helper computing the big-endian hex digits of `n` (empty for
0); correct whenever `n ≤ fuel`. -/
def natToHexCoreAux : ℕ → ℕ → List Char
  | 0, _ => []
  | _ + 1, 0 => []
  | fuel + 1, n + 1 => natToHexCoreAux fuel ((n + 1) / 16) ++ [hexDigitChar ((n + 1) % 16)]

/-- Big-endian hex digits of `n` (empty for 0), the core of `toString(16)`. -/
def natToHexCore (n : ℕ) : List Char := natToHexCoreAux n n

/-- `n.toString(16)` as a character list (returns "0" for 0). -/
def natToHexDigits (n : ℕ) : List Char :=
  if n = 0 then ['0'] else natToHexCore n

/-- `fees[i].toString(16).padStart(6, '0')` (swap.ts line 404). -/
def feeHexChars (f : ℕ) : List Char :=
  List.replicate (6 - (natToHexDigits f).length) '0' ++ natToHexDigits f

/-- `t.toLowerCase().replace(/^0x/, '')` (swap.ts lines 402, 406): lowercase
the token address and strip one leading `0x`. -/
def addrHexChars (t : String) : List Char :=
  let low := t.data.map lowerChar
  if low.take 2 = ['0', 'x'] then low.drop 2 else low

/-- The loop of `encodeV3Path` (lines 403-407): for each fee, append the
6-hex-char fee then the next token's stripped lowercase hex. -/
def encodeV3PathTail : List String → List ℕ → List Char
  | t :: ts, f :: fs => feeHexChars f ++ addrHexChars t ++ encodeV3PathTail ts fs
  | _, _ => []

/-- The string built by `encodeV3Path` once the length checks have passed:
`'0x' + token0 | fee0 | token1 | fee1 | token2 | ...`. -/
def encodeV3PathStr (tokens : List String) (fees : List ℕ) : String :=
  String.mk (['0', 'x'] ++ addrHexChars (tokens.headD "") ++ encodeV3PathTail tokens.tail fees)

/-- `encodeV3Path` of swap.ts (lines 398-409), with the two thrown errors
modelled as `Except.error`. -/
def encodeV3Path (tokens : List String) (fees : List ℕ) : Except String String :=
  if tokens.length < 2 then .error "encodeV3Path: need at least 2 tokens"
  else if fees.length ≠ tokens.length - 1 then .error "encodeV3Path: fees length mismatch"
  else .ok (encodeV3PathStr tokens fees)

/-- Modelled from the spec: the repository contains no decoder for the
concentrated-liquidity path format, only the encoder (`encodeV3Path`); §4.4
and §8 of the spec require a bit-exact decoder for the round-trip property.
This decoder follows the spec's byte-level format `asset0 | fee0 | asset1 |
fee1 | asset2 | ...` (20-byte addresses = 40 hex chars, 3-byte fees = 6 hex
chars): after the leading `0x` and first 40-char address, repeatedly parse a
6-char fee and a 40-char address. -/
def decodeV3PathAux (cs : List Char) : Option (List String × List ℕ) :=
  if cs = [] then some ([], [])
  else if _h46 : 46 ≤ cs.length then
    match decodeV3PathAux (cs.drop 46) with
    | none => none
    | some (ts, fs) =>
        some (String.mk ('0' :: 'x' :: (cs.drop 6).take 40) :: ts,
              hexListToNat (cs.take 6) :: fs)
  else none
termination_by cs.length
decreasing_by simp; omega

/-- Modelled from the spec (see `decodeV3PathAux`): full decoder, checking the
`0x` prefix and reading the first 40-char address. -/
def decodeV3Path (s : String) : Option (List String × List ℕ) :=
  if s.data.take 2 = ['0', 'x'] ∧ 42 ≤ s.data.length then
    match decodeV3PathAux ((s.data.drop 2).drop 40) with
    | none => none
    | some (ts, fs) => some (String.mk ('0' :: 'x' :: (s.data.drop 2).take 40) :: ts, fs)
  else none

/-- `c` is a lowercase hex digit (`0`-`9` or `a`-`f`). -/
def isLowerHexChar (c : Char) : Bool :=
  decide ((48 ≤ c.toNat ∧ c.toNat ≤ 57) ∨ (97 ≤ c.toNat ∧ c.toNat ≤ 102))

/-- A normalized 20-byte address string: `0x` followed by exactly 40 lowercase
hex digits. -/
def IsNormAddr (t : String) : Prop :=
  t.data.length = 42 ∧ t.data.take 2 = ['0', 'x'] ∧
    ∀ c ∈ t.data.drop 2, isLowerHexChar c = true

instance (t : String) : Decidable (IsNormAddr t) := by
  unfold IsNormAddr; infer_instance

/-- One viable evaluated candidate: the route together with its non-zero raw
output (`{ path, out }` / `{ r, out }` in the source). -/
structure RankedEntry (α : Type) where
  route : α
  out : ℕ
deriving DecidableEq, Repr

/-- The comparator-induced order of swap.ts line 280 / 529:
`(a, b) => (a.out > b.out ? -1 : (a.out < b.out ? 1 : 0))` - `a` may come
before `b` exactly when `b.out ≤ a.out`. -/
def rankOut {α : Type} : RankedEntry α → RankedEntry α → Prop :=
  fun x y => y.out ≤ x.out

instance {α : Type} : DecidableRel (rankOut (α := α)) :=
  fun x y => Nat.decLe y.out x.out

instance {α : Type} : IsTotal (RankedEntry α) rankOut :=
  ⟨fun x y => Nat.le_total y.out x.out⟩

instance {α : Type} : IsTrans (RankedEntry α) rankOut :=
  ⟨fun _ _ _ hab hbc => Nat.le_trans hbc hab⟩

/-- The ranking of swap.ts lines 280 / 529: a stable sort (JS `Array.sort` is
stable) by raw output descending, comparing nothing but `out`.  A stable
sort's result is uniquely determined by the comparator, so insertion sort with
the non-strict comparator models it exactly. -/
def rankEntries {α : Type} (l : List (RankedEntry α)) : List (RankedEntry α) :=
  l.insertionSort rankOut

/-- `results.filter(Boolean)` over the concurrent evaluations (lines 271-275 /
522-527): a candidate whose evaluation fails or returns zero becomes `null`
and is dropped; the others carry their output. -/
def viableResults {α : Type} (evalR : α → ℕ → ℕ) (cands : List α) (a : ℕ) :
    List (RankedEntry α) :=
  cands.filterMap (fun c => if evalR c a = 0 then none else some ⟨c, evalR c a⟩)

/-- The mutable state of the split grid search (lines 288-291 / 536):
`bestTotalOut`, `bestPercentToR1`, `bestOut1`, `bestOut2`. -/
structure SplitState where
  bestTotal : ℕ
  bestP : ℕ
  bestO1 : ℕ
  bestO2 : ℕ
deriving DecidableEq, Repr

/-- The split percentages tried by the loop `for (p = 10; p <= 90; p += 10)`. -/
def gridPercents : List ℕ := [10, 20, 30, 40, 50, 60, 70, 80, 90]

/-- One iteration of the grid search (lines 292-303 / 537-551): send `p`% to
route 1 (`in1 = amountInRaw * p / 100`), the exact remainder to route 2, and
keep the split iff the combined output strictly improves. -/
def splitStep (ev1 ev2 : ℕ → ℕ) (a : ℕ) (st : SplitState) (p : ℕ) : SplitState :=
  let in1 := a * p / 100
  let in2 := a - in1
  let o1 := ev1 in1
  let o2 := ev2 in2
  if st.bestTotal < o1 + o2 then ⟨o1 + o2, p, o1, o2⟩ else st

/-- The whole grid search, folding `splitStep` from the initial state
`{bestTotalOut = 0, bestPercentToR1 = 100, bestOut1 = ranked[0].out,
bestOut2 = 0}`. -/
def splitSearch (ev1 ev2 : ℕ → ℕ) (a : ℕ) (init : SplitState) : SplitState :=
  gridPercents.foldl (splitStep ev1 ev2 a) init

/-- The best combined output over the grid (what the search is looking for). -/
def gridBest (ev1 ev2 : ℕ → ℕ) (a : ℕ) : ℕ :=
  (gridPercents.map (fun p => ev1 (a * p / 100) + ev2 (a - a * p / 100))).foldr max 0

/-- One leg of a split quote (`SplitQuotePart` of swap.ts, raw fields). -/
structure SplitPart (α : Type) where
  amountInRaw : ℕ
  amountOutRaw : ℕ
  route : α
deriving DecidableEq, Repr

/-- The raw-integer content of a `LiveQuote` returned by the v2/v3 quoters:
display strings (`amountIn`, `amountOut`, `pathSymbols`) and provider tags
are formatting of these fields and are omitted. -/
structure LiveQuoteM (α : Type) where
  amountInRaw : ℕ
  amountOutRaw : ℕ
  isSplit : Bool
  parts : List (SplitPart α)
  route? : Option α
deriving DecidableEq, Repr

/-- The single-route quote (lines 305-326 and 368-389 / 552-577 and 622-646). -/
def singleQuote {α : Type} (a : ℕ) (r : RankedEntry α) : LiveQuoteM α :=
  ⟨a, r.out, false, [], some r.route⟩

/-- The split quote (lines 328-365 / 579-619): part inputs are recomputed from
`bestPercentToR1`, outputs are the recorded `bestOut1`/`bestOut2`, and the
total is their sum. -/
def splitQuote {α : Type} (a : ℕ) (r1 r2 : RankedEntry α) (st : SplitState) :
    LiveQuoteM α :=
  let in1 := a * st.bestP / 100
  let in2 := a - in1
  ⟨a, st.bestO1 + st.bestO2, true,
    [⟨in1, st.bestO1, r1.route⟩, ⟨in2, st.bestO2, r2.route⟩], none⟩

/-- Selection logic shared verbatim by `quotePcsV2BestExactIn`
(lines 281-389) and `quotePcsV3BestExactIn` (lines 530-646): error when no
viable route; with split routing enabled and at least two ranked routes, run
the grid search and return the split only if it strictly beats
`ranked[0].out` (the `ranked[0].out >= bestTotalOut` tie goes to the single
route); otherwise the best single route.  `evalS` evaluates one route at a
partial input amount during the grid search. -/
def quoteBestCore {α : Type} (evalS : α → ℕ → ℕ) (ranked : List (RankedEntry α))
    (allowSplit : Bool) (a : ℕ) : Except String (LiveQuoteM α) :=
  match ranked with
  | [] => .error "Aucune route de swap valable trouvee"
  | [r1] => .ok (singleQuote a r1)
  | r1 :: r2 :: _ =>
    if allowSplit then
      let st := splitSearch (evalS r1.route) (evalS r2.route) a ⟨0, 100, r1.out, 0⟩
      if st.bestTotal ≤ r1.out then .ok (singleQuote a r1) else .ok (splitQuote a r1 r2 st)
    else .ok (singleQuote a r1)

/-- The ranked list built by `quotePcsV2BestExactIn` (lines 271-280):
evaluate every candidate path with the venue function `f` (modelling
`evaluatePathOut`, failures already mapped to 0), drop zeros, stable-sort by
output descending. -/
def rankedV2 (f : List String → ℕ → ℕ) (fromAddr toAddr : String) (mh : Bool)
    (mx? : Option ℕ) (inter : List String) (a : ℕ) : List (RankedEntry (List String)) :=
  rankEntries (viableResults f (candidatePathsV2 fromAddr toAddr mh (clampMaxHops mx?) inter) a)

/-- `quotePcsV2BestExactIn` of swap.ts (lines 206-390), from the point where
the raw input amount and token addresses are resolved.  `f path amountIn`
models `evaluatePathOut` (`router.getAmountsOut`, 0 on failure); `inter` is
the resolved preferred-intermediate address list. -/
def quotePcsV2BestExactIn (f : List String → ℕ → ℕ) (fromAddr toAddr : String)
    (mh : Bool) (mx? : Option ℕ) (inter : List String) (allowSplit : Bool) (a : ℕ) :
    Except String (LiveQuoteM (List String)) :=
  quoteBestCore f (rankedV2 f fromAddr toAddr mh mx? inter a) allowSplit a

/-- A v3 route: token sequence plus one fee tier per hop. -/
structure V3Route where
  tokens : List String
  fees : List ℕ
deriving DecidableEq, Repr

/-- Default v3 fee tiers (`SERVER_PCS_V3_FEE_TIERS` absent, line 73). -/
def DEFAULT_V3_FEE_TIERS : List ℕ := [100, 500, 2500, 10000]

/-- `(params.feeTiers && params.feeTiers.length ? params.feeTiers :
DEFAULT_V3_FEE_TIERS).slice(0, 6)` (line 478). -/
def resolveFeeTiers (ft? : Option (List ℕ)) : List ℕ :=
  (match ft? with
   | some l => if l = [] then DEFAULT_V3_FEE_TIERS else l
   | none => DEFAULT_V3_FEE_TIERS).take 6

/-- The `choose` recursion of `addRoute` (lines 489-495): all per-hop fee-tier
assignments, first hop varying slowest, exactly in the source's push order. -/
def feeCombos (tiers : List ℕ) : ℕ → List (List ℕ)
  | 0 => [[]]
  | n + 1 => tiers.flatMap (fun f => (feeCombos tiers n).map (fun fs => f :: fs))

/-- `addRoute` of `quotePcsV3BestExactIn` (lines 482-497): deduplicate, apply
the hop policy, then expand by fee-tier combinations per hop. -/
def addRouteV3 (mh : Bool) (maxHops : ℕ) (tiers : List ℕ) (tokens : List String) :
    List V3Route :=
  let clean := uniqueAddresses tokens
  if clean.length < 2 then []
  else if mh = false ∧ clean.length ≠ 2 then []
  else if mh = true ∧ maxHops < clean.length then []
  else (feeCombos tiers (clean.length - 1)).map (fun fs => ⟨clean, fs⟩)

/-- The `routes` array of `quotePcsV3BestExactIn` (lines 481-507), in source
order: direct route, then one- and two-intermediate routes when multi-hop. -/
def candidateRoutesV3 (fromAddr toAddr : String) (mh : Bool) (maxHops : ℕ)
    (inter : List String) (tiers : List ℕ) : List V3Route :=
  addRouteV3 mh maxHops tiers [fromAddr, toAddr]
  ++ (if mh then
        inter.flatMap (fun m => addRouteV3 mh maxHops tiers [fromAddr, m, toAddr])
        ++ (orderedPairs inter).flatMap
            (fun ij => addRouteV3 mh maxHops tiers [fromAddr, ij.1, ij.2, toAddr])
      else [])

/-- `evalRoute` (lines 510-520): a 2-token route tries the single-hop call and
the encoded multi-hop call, preferring the multi-hop result when non-zero;
longer routes use only the multi-hop encoding.  `fS tokenIn tokenOut fee a`
models `quoteV3ExactInputSingle`, `fM pathBytes a` models
`quoteV3ExactInput`; both return 0 on failure as in the source. -/
def evalRouteV3 (fS : String → String → ℕ → ℕ → ℕ) (fM : String → ℕ → ℕ)
    (r : V3Route) (a : ℕ) : ℕ :=
  if r.tokens.length = 2 then
    let single := fS (r.tokens.headD "") (r.tokens.getD 1 "") (r.fees.headD 0) a
    let multi := fM (encodeV3PathStr r.tokens r.fees) a
    if 0 < multi then multi else single
  else fM (encodeV3PathStr r.tokens r.fees) a

/-- Per-part evaluation inside the v3 split grid search (lines 540-547): a
2-token route uses ONLY `quoteV3ExactInputSingle` there (unlike the initial
ranking), longer routes the multi-hop encoding. -/
def evalSplitV3 (fS : String → String → ℕ → ℕ → ℕ) (fM : String → ℕ → ℕ)
    (r : V3Route) (a : ℕ) : ℕ :=
  if r.tokens.length = 2 then fS (r.tokens.headD "") (r.tokens.getD 1 "") (r.fees.headD 0) a
  else fM (encodeV3PathStr r.tokens r.fees) a

/-- The ranked list built by `quotePcsV3BestExactIn` (lines 522-529). -/
def rankedV3 (fS : String → String → ℕ → ℕ → ℕ) (fM : String → ℕ → ℕ)
    (fromAddr toAddr : String) (mh : Bool) (mx? : Option ℕ) (inter : List String)
    (ft? : Option (List ℕ)) (a : ℕ) : List (RankedEntry V3Route) :=
  rankEntries (viableResults (evalRouteV3 fS fM)
    (candidateRoutesV3 fromAddr toAddr mh (clampMaxHops mx?) inter (resolveFeeTiers ft?)) a)

/-- `quotePcsV3BestExactIn` of swap.ts (lines 452-647), from the point where
the raw input amount and token addresses are resolved. -/
def quotePcsV3BestExactIn (fS : String → String → ℕ → ℕ → ℕ) (fM : String → ℕ → ℕ)
    (fromAddr toAddr : String) (mh : Bool) (mx? : Option ℕ) (inter : List String)
    (ft? : Option (List ℕ)) (allowSplit : Bool) (a : ℕ) :
    Except String (LiveQuoteM V3Route) :=
  quoteBestCore (evalSplitV3 fS fM) (rankedV3 fS fM fromAddr toAddr mh mx? inter ft? a)
    allowSplit a

/-- Result of `quotePancakeBest`: a v2 quote or a v3 quote, the constructor
recording the `provider` tag set at lines 683-687. -/
inductive PancakeChoice
  | v2 (q : LiveQuoteM (List String))
  | v3 (q : LiveQuoteM V3Route)
deriving DecidableEq, Repr

/-- Total raw output of a `quotePancakeBest` result. -/
def PancakeChoice.amountOutRaw : PancakeChoice → ℕ
  | .v2 q => q.amountOutRaw
  | .v3 q => q.amountOutRaw

/-- The selection logic of `quotePancakeBest` (lines 676-688) applied to the
settled results of the two venue families (`Promise.allSettled`; a rejected
family yields `none`): error only when both failed, otherwise the fulfilled
one, and with both fulfilled the strictly larger raw output wins
(`a3 > a2 ? v3 : v2`), ties going to v2. -/
def quotePancakeBest (ok2 : Option (LiveQuoteM (List String)))
    (ok3 : Option (LiveQuoteM V3Route)) : Except String PancakeChoice :=
  match ok2, ok3 with
  | none, none => .error "Aucune route Pancake (v2/v3) trouvee"
  | some q2, none => .ok (.v2 q2)
  | none, some q3 => .ok (.v3 q3)
  | some q2, some q3 =>
    if q2.amountOutRaw < q3.amountOutRaw then .ok (.v3 q3) else .ok (.v2 q2)

/-- Round-to-nearest with ties-to-even at absolute precision `2^e`: the core
of one IEEE-754 rounding step once the binade (hence the ulp exponent `e`) is
known. -/
def roundAtExp (e : ℤ) (q : ℚ) : ℚ :=
  let m : ℚ := q / 2 ^ e
  let fl : ℤ := ⌊m⌋
  let frac : ℚ := m - fl
  let mr : ℤ :=
    if frac < 1 / 2 then fl
    else if 1 / 2 < frac then fl + 1
    else if fl % 2 = 0 then fl else fl + 1
  (mr : ℚ) * 2 ^ e

/-- IEEE-754 binary64 round-to-nearest-even of an exact rational, in the
normal range (53-bit significand; subnormals and overflow are outside the
magnitudes the slippage computation ever sees). -/
def roundDouble (q : ℚ) : ℚ :=
  if q = 0 then 0 else roundAtExp (Int.log 2 |q| - 52) q

/-- The slippage computation shared by `quoteWithOneInchExactIn`
(lines 838-843) and `simulateSwapCostNow` (lines 874-883):
`factor = 1e6 - Math.floor((slip / 100) * Number(denom))` where `slip / 100`
and the product are IEEE-754 double operations, each correctly rounded
(`roundDouble`; `slip` is itself the double the caller supplied, and `100`
and `1e6` are exact doubles), then `minRaw = outRaw * factor / 1e6` with
BigInt division (truncation). -/
def slippageAmountOutMin (outRaw : ℕ) (slip : ℚ) : ℤ :=
  let denom : ℤ := 1000000
  let factor : ℤ := denom - Int.floor (roundDouble (roundDouble (slip / 100) * 1000000))
  Int.tdiv ((outRaw : ℤ) * factor) denom

/-- The guard around the slippage computation: `amountOutMin` is set only when
the slippage parameter is a finite number `> 0`. -/
def applySlippage (outRaw : ℕ) (slip : ℚ) : Option ℤ :=
  if 0 < slip then some (slippageAmountOutMin outRaw slip) else none

/-- Modelled from the spec (§6): `amountOutMin = amountOutRaw × (1,000,000 −
floor(slippagePercent/100 × 1,000,000)) / 1,000,000` in integer arithmetic. -/
def specAmountOutMin (outRaw : ℕ) (slip : ℚ) : ℤ :=
  Int.tdiv ((outRaw : ℤ) * (1000000 - Int.floor (slip / 100 * 1000000))) 1000000

/-- The best single-route output: `ranked[0].out` (0 for an empty ranking). -/
def bestSingleOut {α : Type} (ranked : List (RankedEntry α)) : ℕ :=
  (ranked.head?.map RankedEntry.out).getD 0

/-- The best combined grid-search output over the top two ranked routes (0
when fewer than two routes exist, in which case no search runs). -/
def gridBestTop {α : Type} (evalS : α → ℕ → ℕ) (ranked : List (RankedEntry α)) (a : ℕ) : ℕ :=
  match ranked with
  | r1 :: r2 :: _ => gridBest (evalS r1.route) (evalS r2.route) a
  | _ => 0

lemma uaAux_chain :
    ∀ (rest : List String) (prev : String),
      List.Chain' (fun x y => lowerStr x ≠ lowerStr y) (prev :: uaAux prev rest) := by
  intro rest
  induction rest with
  | nil => intro prev; simp [uaAux]
  | cons a rest ih =>
    intro prev
    by_cases h : lowerStr a = lowerStr prev
    · rw [uaAux, if_pos h]
      have hprev := ih a
      rw [List.chain'_cons'] at hprev ⊢
      refine ⟨?_, hprev.2⟩
      intro y hy
      have := hprev.1 y hy
      rw [← h]
      exact this
    · rw [uaAux, if_neg h]
      rw [List.chain'_cons]
      exact ⟨fun he => h he.symm, ih a⟩

/-- Every output of `uniqueAddresses` is free of consecutive duplicates after
lowercase normalization. -/
lemma uniqueAddresses_chain (p : List String) :
    List.Chain' (fun x y => lowerStr x ≠ lowerStr y) (uniqueAddresses p) := by
  cases p with
  | nil => simp [uniqueAddresses]
  | cons a rest => exact uaAux_chain rest a

/-- `uniqueAddresses` on a 2-element list with distinct lowercase forms is the
identity. -/
lemma uniqueAddresses_pair (x y : String) (h : lowerStr x ≠ lowerStr y) :
    uniqueAddresses [x, y] = [x, y] := by
  rw [uniqueAddresses, uaAux, if_neg (fun he => h he.symm), uaAux]

/-- If `addPath` keeps a path, what it keeps is the deduplicated path. -/
lemma addPathV2_some {mh : Bool} {maxHops : ℕ} {p c : List String}
    (h : addPathV2 mh maxHops p = some c) : c = uniqueAddresses p := by
  unfold addPathV2 at h
  split at h <;> simp_all

/-- Every enumerated v2 candidate path is a `uniqueAddresses` image. -/
lemma candidatePathsV2_clean (fromAddr toAddr : String) (mh : Bool) (maxHops : ℕ)
    (inter : List String) (p : List String)
    (hp : p ∈ candidatePathsV2 fromAddr toAddr mh maxHops inter) :
    ∃ q, p = uniqueAddresses q := by
  rw [candidatePathsV2, List.mem_filterMap] at hp
  obtain ⟨q, -, hq⟩ := hp
  exact ⟨q, addPathV2_some hq⟩

lemma hexCharVal_hexDigitChar : ∀ d < 16, hexCharVal (hexDigitChar d) = d := by decide

lemma hexListToNat_append_singleton (l : List Char) (c : Char) :
    hexListToNat (l ++ [c]) = 16 * hexListToNat l + hexCharVal c := by
  simp [hexListToNat, List.foldl_append, Nat.mul_comm]

lemma hexListToNat_natToHexCoreAux : ∀ (fuel n : ℕ), n ≤ fuel →
    hexListToNat (natToHexCoreAux fuel n) = n := by
  intro fuel
  induction fuel with
  | zero =>
    intro n h
    have : n = 0 := by omega
    subst this
    simp [natToHexCoreAux, hexListToNat]
  | succ fuel ih =>
    intro n h
    match n with
    | 0 => simp [natToHexCoreAux, hexListToNat]
    | m + 1 =>
      have hlt : (m + 1) / 16 < m + 1 := Nat.div_lt_self (Nat.succ_pos m) (by omega)
      rw [natToHexCoreAux, hexListToNat_append_singleton,
        ih ((m + 1) / 16) (by omega),
        hexCharVal_hexDigitChar ((m + 1) % 16) (Nat.mod_lt _ (by omega))]
      omega

lemma natToHexCoreAux_length_le : ∀ (fuel k n : ℕ), n ≤ fuel → n < 16 ^ k →
    (natToHexCoreAux fuel n).length ≤ k := by
  intro fuel
  induction fuel with
  | zero =>
    intro k n h _
    have : n = 0 := by omega
    subst this
    simp [natToHexCoreAux]
  | succ fuel ih =>
    intro k n h hk
    match n with
    | 0 => simp [natToHexCoreAux]
    | m + 1 =>
      match k with
      | 0 => omega
      | j + 1 =>
        rw [natToHexCoreAux, List.length_append]
        have hdiv : (m + 1) / 16 < 16 ^ j := by
          rw [Nat.div_lt_iff_lt_mul (by omega)]
          calc m + 1 < 16 ^ (j + 1) := hk
            _ = 16 ^ j * 16 := by ring
        have hlt : (m + 1) / 16 < m + 1 := Nat.div_lt_self (Nat.succ_pos m) (by omega)
        have := ih j ((m + 1) / 16) (by omega) hdiv
        simpa using Nat.add_le_add this (le_refl 1)

lemma hexListToNat_natToHexCore (n : ℕ) : hexListToNat (natToHexCore n) = n :=
  hexListToNat_natToHexCoreAux n n (le_refl n)

lemma natToHexCore_length_le (k n : ℕ) (h : n < 16 ^ k) : (natToHexCore n).length ≤ k :=
  natToHexCoreAux_length_le n k n (le_refl n) h

lemma natToHexDigits_length_le {k : ℕ} (hk : 1 ≤ k) {n : ℕ} (hn : n < 16 ^ k) :
    (natToHexDigits n).length ≤ k := by
  rw [natToHexDigits]
  split
  · simpa using hk
  · exact natToHexCore_length_le k n hn

lemma hexListToNat_natToHexDigits (n : ℕ) : hexListToNat (natToHexDigits n) = n := by
  rw [natToHexDigits]
  split
  · simp_all [hexListToNat, hexCharVal]
  · exact hexListToNat_natToHexCore n

lemma hexListToNat_replicate_zero (k : ℕ) (l : List Char) :
    hexListToNat (List.replicate k '0' ++ l) = hexListToNat l := by
  induction k with
  | zero => simp
  | succ j ih =>
    rw [List.replicate_succ, List.cons_append]
    show hexListToNat (('0' : Char) :: (List.replicate j '0' ++ l)) = hexListToNat l
    rw [← ih]
    simp [hexListToNat, hexCharVal]

lemma feeHexChars_length {f : ℕ} (hf : f < 16 ^ 6) : (feeHexChars f).length = 6 := by
  rw [feeHexChars, List.length_append, List.length_replicate]
  have := natToHexDigits_length_le (by omega) hf
  omega

lemma hexListToNat_feeHexChars (f : ℕ) : hexListToNat (feeHexChars f) = f := by
  rw [feeHexChars, hexListToNat_replicate_zero, hexListToNat_natToHexDigits]

lemma lowerChar_fixed {c : Char} (h : c.toNat < 65 ∨ 90 < c.toNat) : lowerChar c = c := by
  rw [lowerChar, if_neg]; omega

lemma map_lowerChar_fixed : ∀ (l : List Char), (∀ c ∈ l, lowerChar c = c) →
    l.map lowerChar = l := by
  intro l h
  induction l with
  | nil => rfl
  | cons c l ih =>
    rw [List.map_cons, h c (by simp), ih (fun x hx => h x (by simp [hx]))]

lemma isNormAddr_data (t : String) (ht : IsNormAddr t) :
    t.data = '0' :: 'x' :: t.data.drop 2 ∧ (t.data.drop 2).length = 40 := by
  obtain ⟨hlen, htake, -⟩ := ht
  constructor
  · conv_lhs => rw [← List.take_append_drop 2 t.data]
    rw [htake]; rfl
  · rw [List.length_drop, hlen]

lemma addrHexChars_of_norm (t : String) (ht : IsNormAddr t) :
    addrHexChars t = t.data.drop 2 := by
  obtain ⟨hlen, htake, hhex⟩ := ht
  have hfix : t.data.map lowerChar = t.data := by
    apply map_lowerChar_fixed
    intro c hc
    rcases List.mem_append.mp (by rw [List.take_append_drop 2 t.data]; exact hc :
        c ∈ t.data.take 2 ++ t.data.drop 2) with h2 | h2
    · rw [htake] at h2
      simp only [List.mem_cons, List.not_mem_nil, or_false] at h2
      rcases h2 with h | h <;> (subst h; decide)
    · have := hhex c h2
      apply lowerChar_fixed
      simp [isLowerHexChar] at this
      omega
  rw [addrHexChars]
  simp only [hfix, htake, if_pos rfl, if_true]

/-- The tail encoder splits off exactly 46 chars per (fee, token) pair, and the
spec-modelled decoder recovers them. -/
lemma decodeV3PathAux_encodeV3PathTail :
    ∀ (fs : List ℕ) (ts : List String), ts.length = fs.length →
      (∀ t ∈ ts, IsNormAddr t) → (∀ f ∈ fs, f < 16 ^ 6) →
      decodeV3PathAux (encodeV3PathTail ts fs) = some (ts, fs) := by
  intro fs
  induction fs with
  | nil =>
    intro ts hlen _ _
    have hts0 : ts = [] := List.length_eq_zero.mp (by rw [hlen]; rfl)
    subst hts0
    rw [show encodeV3PathTail [] [] = [] from rfl, decodeV3PathAux, if_pos rfl]
  | cons f fs ih =>
    intro ts hlen hts hfs
    match ts, hlen with
    | t :: ts, hlen =>
      have hnorm : IsNormAddr t := hts t (by simp)
      have hf : f < 16 ^ 6 := hfs f (by simp)
      have haddr := addrHexChars_of_norm t hnorm
      have hdata := isNormAddr_data t hnorm
      have hfee6 : (feeHexChars f).length = 6 := feeHexChars_length hf
      rw [encodeV3PathTail]
      set E := feeHexChars f ++ addrHexChars t ++ encodeV3PathTail ts fs with hE
      have hlenE : E.length = 46 + (encodeV3PathTail ts fs).length := by
        rw [hE, List.append_assoc, List.length_append, List.length_append,
          hfee6, haddr, hdata.2]
        omega
      have hEne : E ≠ [] := by
        intro hnil
        rw [hnil] at hlenE
        simp only [List.length_nil] at hlenE
        omega
      rw [decodeV3PathAux, if_neg hEne, dif_pos (by omega)]
      have htk6 : E.take 6 = feeHexChars f := by
        rw [hE, List.append_assoc, ← hfee6, List.take_left]
      have hdr6 : E.drop 6 = addrHexChars t ++ encodeV3PathTail ts fs := by
        rw [hE, List.append_assoc, ← hfee6, List.drop_left]
      have htk40 : (E.drop 6).take 40 = addrHexChars t := by
        rw [hdr6, ← (haddr ▸ hdata.2 : (addrHexChars t).length = 40), List.take_left]
      have hdr46 : E.drop 46 = encodeV3PathTail ts fs := by
        rw [show (46 : ℕ) = 6 + 40 by rfl, ← List.drop_drop, hdr6,
          ← (haddr ▸ hdata.2 : (addrHexChars t).length = 40), List.drop_left]
      rw [hdr46, ih ts (by simpa using hlen) (fun x hx => hts x (by simp [hx]))
        (fun x hx => hfs x (by simp [hx]))]
      rw [htk6, htk40, haddr, hexListToNat_feeHexChars]
      have hmk : String.mk ('0' :: 'x' :: t.data.drop 2) = t := by
        rw [← hdata.1]
      rw [hmk]

/-- Round trip of the source encoder and the spec-modelled decoder, for
normalized addresses and 3-byte fee values. -/
lemma decodeV3Path_encodeV3PathStr : ∀ (tokens : List String) (fees : List ℕ),
    2 ≤ tokens.length → fees.length = tokens.length - 1 →
    (∀ t ∈ tokens, IsNormAddr t) → (∀ f ∈ fees, f < 16 ^ 6) →
    decodeV3Path (encodeV3PathStr tokens fees) = some (tokens, fees) := by
  intro tokens fees hlen2 hfees hnorm hfee
  match tokens with
  | t0 :: ts =>
    have hn0 : IsNormAddr t0 := hnorm t0 (by simp)
    have haddr := addrHexChars_of_norm t0 hn0
    have hdata := isNormAddr_data t0 hn0
    have hA0len : (addrHexChars t0).length = 40 := by rw [haddr]; exact hdata.2
    have hstr : encodeV3PathStr (t0 :: ts) fees =
        String.mk ('0' :: 'x' :: (addrHexChars t0 ++ encodeV3PathTail ts fees)) := rfl
    rw [hstr]
    unfold decodeV3Path
    have h1 : (String.mk ('0' :: 'x' :: (addrHexChars t0 ++ encodeV3PathTail ts fees))).data
        = '0' :: 'x' :: (addrHexChars t0 ++ encodeV3PathTail ts fees) := rfl
    rw [h1]
    have hc2 : 42 ≤ ('0' :: 'x' :: (addrHexChars t0 ++ encodeV3PathTail ts fees)).length := by
      simp only [List.length_cons, List.length_append, hA0len]
      omega
    rw [if_pos ⟨rfl, hc2⟩]
    have hdrop2 : ('0' :: 'x' :: (addrHexChars t0 ++ encodeV3PathTail ts fees)).drop 2
        = addrHexChars t0 ++ encodeV3PathTail ts fees := rfl
    rw [hdrop2]
    have hdrop40 : (addrHexChars t0 ++ encodeV3PathTail ts fees).drop 40
        = encodeV3PathTail ts fees := by
      rw [← hA0len, List.drop_left]
    have htake40 : (addrHexChars t0 ++ encodeV3PathTail ts fees).take 40
        = addrHexChars t0 := by
      rw [← hA0len, List.take_left]
    have hlen : ts.length = fees.length := by
      simp only [List.length_cons] at hfees
      omega
    rw [hdrop40, htake40,
      decodeV3PathAux_encodeV3PathTail fees ts hlen
        (fun x hx => hnorm x (by simp [hx])) hfee]
    rw [haddr]
    have hmk : String.mk ('0' :: 'x' :: t0.data.drop 2) = t0 := by
      rw [← hdata.1]
    rw [hmk]

lemma rankEntries_perm {α : Type} (l : List (RankedEntry α)) :
    (rankEntries l).Perm l :=
  List.perm_insertionSort rankOut l

lemma rankEntries_sorted {α : Type} (l : List (RankedEntry α)) :
    List.Sorted rankOut (rankEntries l) :=
  List.sorted_insertionSort rankOut l

lemma rankEntries_cons {α : Type} (x : RankedEntry α) (ys : List (RankedEntry α)) :
    rankEntries (x :: ys) = List.orderedInsert rankOut x (rankEntries ys) := rfl

lemma filter_orderedInsert {α : Type} (v : ℕ) (x : RankedEntry α) :
    ∀ l : List (RankedEntry α),
      (List.orderedInsert rankOut x l).filter (fun e => e.out == v)
        = if x.out = v then x :: l.filter (fun e => e.out == v)
          else l.filter (fun e => e.out == v) := by
  intro l
  induction l with
  | nil =>
    by_cases hx : x.out = v <;>
      simp [List.orderedInsert, List.filter_cons, List.filter_nil, hx]
  | cons y ys ih =>
    by_cases h : rankOut x y
    · rw [List.orderedInsert, if_pos h]
      by_cases hx : x.out = v <;> simp [List.filter_cons, hx]
    · rw [List.orderedInsert, if_neg h]
      have hlt : x.out < y.out := Nat.lt_of_not_le h
      by_cases hx : x.out = v
      · have hy : ¬(y.out = v) := by omega
        simp [List.filter_cons, hx, hy, ih]
      · by_cases hy : y.out = v <;> simp [List.filter_cons, hx, hy, ih]

/-- Stability of the ranking: among entries with equal output, the ranked list
keeps exactly the first-seen order of the input. -/
lemma rankEntries_stable {α : Type} (l : List (RankedEntry α)) (v : ℕ) :
    (rankEntries l).filter (fun e => e.out == v) = l.filter (fun e => e.out == v) := by
  induction l with
  | nil => rfl
  | cons x ys ih =>
    rw [rankEntries_cons, filter_orderedInsert]
    by_cases hx : x.out = v <;> simp [List.filter_cons, hx, ih]

lemma rankEntries_eq_nil_iff {α : Type} (l : List (RankedEntry α)) :
    rankEntries l = [] ↔ l = [] := by
  constructor
  · intro h
    have hp := rankEntries_perm l
    rw [h] at hp
    exact hp.nil_eq.symm
  · intro h; subst h; rfl

lemma viableResults_mem {α : Type} {evalR : α → ℕ → ℕ} {cands : List α} {a : ℕ}
    {e : RankedEntry α} (he : e ∈ viableResults evalR cands a) :
    0 < e.out ∧ e.route ∈ cands ∧ e.out = evalR e.route a := by
  rw [viableResults, List.mem_filterMap] at he
  obtain ⟨c, hc, hcc⟩ := he
  by_cases h : evalR c a = 0
  · rw [if_pos h] at hcc; simp at hcc
  · rw [if_neg h] at hcc
    cases hcc
    exact ⟨Nat.pos_of_ne_zero h, hc, rfl⟩

lemma viableResults_eq_nil_iff {α : Type} (evalR : α → ℕ → ℕ) (cands : List α) (a : ℕ) :
    viableResults evalR cands a = [] ↔ ∀ c ∈ cands, evalR c a = 0 := by
  rw [viableResults, List.filterMap_eq_nil_iff]
  constructor
  · intro h c hc
    have := h c hc
    by_contra hne
    rw [if_neg hne] at this
    simp at this
  · intro h c hc
    rw [if_pos (h c hc)]

lemma splitStep_bestTotal (ev1 ev2 : ℕ → ℕ) (a : ℕ) (st : SplitState) (p : ℕ) :
    (splitStep ev1 ev2 a st p).bestTotal
      = max st.bestTotal (ev1 (a * p / 100) + ev2 (a - a * p / 100)) := by
  simp only [splitStep]
  split <;> rename_i h <;> simp <;> omega

lemma foldl_splitStep_bestTotal (ev1 ev2 : ℕ → ℕ) (a : ℕ) :
    ∀ (l : List ℕ) (st : SplitState),
      (l.foldl (splitStep ev1 ev2 a) st).bestTotal
        = max st.bestTotal
            ((l.map (fun p => ev1 (a * p / 100) + ev2 (a - a * p / 100))).foldr max 0) := by
  intro l
  induction l with
  | nil => intro st; simp
  | cons p l ih =>
    intro st
    rw [List.foldl_cons, ih, splitStep_bestTotal, List.map_cons, List.foldr_cons]
    exact Nat.max_assoc _ _ _

/-- The search's final `bestTotalOut` is exactly the best combined output over
the grid (the initial value is 0, beaten by any positive total). -/
lemma splitSearch_bestTotal (ev1 ev2 : ℕ → ℕ) (a : ℕ) (r1out : ℕ) :
    (splitSearch ev1 ev2 a ⟨0, 100, r1out, 0⟩).bestTotal = gridBest ev1 ev2 a := by
  rw [splitSearch, foldl_splitStep_bestTotal]
  simp [gridBest]

lemma foldl_splitStep_cases (ev1 ev2 : ℕ → ℕ) (a : ℕ) :
    ∀ (l : List ℕ) (st : SplitState),
      l.foldl (splitStep ev1 ev2 a) st = st
      ∨ ((l.foldl (splitStep ev1 ev2 a) st).bestO1 + (l.foldl (splitStep ev1 ev2 a) st).bestO2
          = (l.foldl (splitStep ev1 ev2 a) st).bestTotal
         ∧ (l.foldl (splitStep ev1 ev2 a) st).bestP ∈ l) := by
  intro l
  induction l with
  | nil => intro st; left; rfl
  | cons p l ih =>
    intro st
    rw [List.foldl_cons]
    rcases ih (splitStep ev1 ev2 a st p) with h | h
    · rw [h]
      simp only [splitStep]
      split
      · right
        exact ⟨rfl, by simp⟩
      · left; rfl
    · right
      exact ⟨h.1, List.mem_cons_of_mem p h.2⟩

lemma foldl_splitStep_bestP (ev1 ev2 : ℕ → ℕ) (a : ℕ) :
    ∀ (l : List ℕ) (st : SplitState), st.bestP ≤ 100 → (∀ p ∈ l, p ≤ 100) →
      (l.foldl (splitStep ev1 ev2 a) st).bestP ≤ 100 := by
  intro l
  induction l with
  | nil => intro st h _; exact h
  | cons p l ih =>
    intro st h hl
    rw [List.foldl_cons]
    apply ih
    · simp only [splitStep]
      split
      · exact hl p (by simp)
      · exact h
    · intro q hq
      exact hl q (by simp [hq])

lemma quoteBestCore_ok_cases {α : Type} {evalS : α → ℕ → ℕ}
    {ranked : List (RankedEntry α)} {sp : Bool} {a : ℕ} {q : LiveQuoteM α}
    (h : quoteBestCore evalS ranked sp a = .ok q) :
    (∃ r1 rest, ranked = r1 :: rest ∧ q = singleQuote a r1)
    ∨ (∃ r1 r2 rest, ranked = r1 :: r2 :: rest ∧ sp = true
        ∧ r1.out <
            (splitSearch (evalS r1.route) (evalS r2.route) a ⟨0, 100, r1.out, 0⟩).bestTotal
        ∧ q = splitQuote a r1 r2
            (splitSearch (evalS r1.route) (evalS r2.route) a ⟨0, 100, r1.out, 0⟩)) := by
  match ranked with
  | [] => simp [quoteBestCore] at h
  | [r1] =>
    simp only [quoteBestCore, Except.ok.injEq] at h
    exact Or.inl ⟨r1, [], rfl, h.symm⟩
  | r1 :: r2 :: rest =>
    simp only [quoteBestCore] at h
    by_cases hsp : sp = true
    · rw [if_pos hsp] at h
      by_cases hle :
          (splitSearch (evalS r1.route) (evalS r2.route) a ⟨0, 100, r1.out, 0⟩).bestTotal
            ≤ r1.out
      · rw [if_pos hle] at h
        simp only [Except.ok.injEq] at h
        exact Or.inl ⟨r1, r2 :: rest, rfl, h.symm⟩
      · rw [if_neg hle] at h
        simp only [Except.ok.injEq] at h
        exact Or.inr ⟨r1, r2, rest, rfl, hsp, Nat.lt_of_not_le hle, h.symm⟩
    · rw [if_neg hsp] at h
      simp only [Except.ok.injEq] at h
      exact Or.inl ⟨r1, r2 :: rest, rfl, h.symm⟩

/-- With split routing on, the core returns a split only when the grid search
strictly beats the best single route, and its total never falls below it. -/
lemma quoteBestCore_split_facts {α : Type} {evalS : α → ℕ → ℕ}
    {ranked : List (RankedEntry α)} {a : ℕ} {q : LiveQuoteM α}
    (h : quoteBestCore evalS ranked true a = .ok q) :
    (q.isSplit = true → bestSingleOut ranked < gridBestTop evalS ranked a)
    ∧ bestSingleOut ranked ≤ q.amountOutRaw := by
  rcases quoteBestCore_ok_cases h with ⟨r1, rest, hr, hq⟩ | ⟨r1, r2, rest, hr, -, hlt, hq⟩
  · subst hq hr
    constructor
    · intro hs
      simp [singleQuote] at hs
    · simp [bestSingleOut, singleQuote]
  · subst hq hr
    have hbt := splitSearch_bestTotal (evalS r1.route) (evalS r2.route) a r1.out
    have hsum :
        splitSearch (evalS r1.route) (evalS r2.route) a ⟨0, 100, r1.out, 0⟩
          = (⟨0, 100, r1.out, 0⟩ : SplitState)
        ∨ ((splitSearch (evalS r1.route) (evalS r2.route) a ⟨0, 100, r1.out, 0⟩).bestO1
              + (splitSearch (evalS r1.route) (evalS r2.route) a ⟨0, 100, r1.out, 0⟩).bestO2
            = (splitSearch (evalS r1.route) (evalS r2.route) a ⟨0, 100, r1.out, 0⟩).bestTotal
           ∧ (splitSearch (evalS r1.route) (evalS r2.route) a
                ⟨0, 100, r1.out, 0⟩).bestP ∈ gridPercents) :=
      foldl_splitStep_cases (evalS r1.route) (evalS r2.route) a gridPercents ⟨0, 100, r1.out, 0⟩
    constructor
    · intro _
      rw [gridBestTop, ← hbt]
      simpa [bestSingleOut] using hlt
    · rcases hsum with hinit | ⟨heq, -⟩
      · rw [hinit] at hlt
        simp at hlt
      · simp only [splitQuote, bestSingleOut, List.head?_cons]
        simp only [Option.map_some', Option.getD_some]
        omega

lemma quoteBestCore_error_iff {α : Type} (evalS : α → ℕ → ℕ)
    (ranked : List (RankedEntry α)) (sp : Bool) (a : ℕ) :
    (∃ e, quoteBestCore evalS ranked sp a = .error e) ↔ ranked = [] := by
  match ranked with
  | [] => simp [quoteBestCore]
  | [r1] => simp [quoteBestCore]
  | r1 :: r2 :: rest =>
    simp only [quoteBestCore]
    constructor
    · rintro ⟨e, he⟩
      split at he <;> [skip; simp at he]
      split at he <;> simp at he
    · intro h
      simp at h

lemma quoteBestCore_ok_pos {α : Type} {evalS : α → ℕ → ℕ}
    {ranked : List (RankedEntry α)} {sp : Bool} {a : ℕ} {q : LiveQuoteM α}
    (hpos : ∀ e ∈ ranked, 0 < e.out)
    (h : quoteBestCore evalS ranked sp a = .ok q) : 0 < q.amountOutRaw := by
  rcases quoteBestCore_ok_cases h with ⟨r1, rest, hr, hq⟩ | ⟨r1, r2, rest, hr, -, hlt, hq⟩
  · subst hq
    have := hpos r1 (by rw [hr]; simp)
    simpa [singleQuote] using this
  · subst hq
    have hsum :
        splitSearch (evalS r1.route) (evalS r2.route) a ⟨0, 100, r1.out, 0⟩
          = (⟨0, 100, r1.out, 0⟩ : SplitState)
        ∨ ((splitSearch (evalS r1.route) (evalS r2.route) a ⟨0, 100, r1.out, 0⟩).bestO1
              + (splitSearch (evalS r1.route) (evalS r2.route) a ⟨0, 100, r1.out, 0⟩).bestO2
            = (splitSearch (evalS r1.route) (evalS r2.route) a ⟨0, 100, r1.out, 0⟩).bestTotal
           ∧ (splitSearch (evalS r1.route) (evalS r2.route) a
                ⟨0, 100, r1.out, 0⟩).bestP ∈ gridPercents) :=
      foldl_splitStep_cases (evalS r1.route) (evalS r2.route) a gridPercents ⟨0, 100, r1.out, 0⟩
    rcases hsum with hinit | ⟨heq, -⟩
    · rw [hinit] at hlt
      simp at hlt
    · simp only [splitQuote]
      omega

/-- Exact split-part accounting: when the core returns a split, the two part
inputs are `a * bestP / 100` and its exact complement, summing to `a`. -/
lemma quoteBestCore_split_parts {α : Type} {evalS : α → ℕ → ℕ}
    {ranked : List (RankedEntry α)} {sp : Bool} {a : ℕ} {q : LiveQuoteM α}
    (h : quoteBestCore evalS ranked sp a = .ok q) (hs : q.isSplit = true) :
    ∃ p1 p2, q.parts = [p1, p2] ∧ p1.amountInRaw + p2.amountInRaw = a := by
  rcases quoteBestCore_ok_cases h with ⟨r1, rest, hr, hq⟩ | ⟨r1, r2, rest, hr, -, hlt, hq⟩
  · subst hq
    simp [singleQuote] at hs
  · subst hq
    have hP : (splitSearch (evalS r1.route) (evalS r2.route) a ⟨0, 100, r1.out, 0⟩).bestP
        ≤ 100 :=
      foldl_splitStep_bestP (evalS r1.route) (evalS r2.route) a gridPercents
        ⟨0, 100, r1.out, 0⟩ (by simp) (by decide)
    set st := splitSearch (evalS r1.route) (evalS r2.route) a ⟨0, 100, r1.out, 0⟩ with hst
    refine ⟨⟨a * st.bestP / 100, st.bestO1, r1.route⟩,
            ⟨a - a * st.bestP / 100, st.bestO2, r2.route⟩, rfl, ?_⟩
    have hin1 : a * st.bestP / 100 ≤ a := by
      have h1 : a * st.bestP ≤ a * 100 := Nat.mul_le_mul_left a hP
      have h2 : a * st.bestP / 100 ≤ a * 100 / 100 := Nat.div_le_div_right h1
      simpa [Nat.mul_div_cancel] using h2
    show a * st.bestP / 100 + (a - a * st.bestP / 100) = a
    omega

lemma addRouteV3_tokens {mh : Bool} {maxHops : ℕ} {tiers : List ℕ}
    {tokens : List String} {r : V3Route} (hr : r ∈ addRouteV3 mh maxHops tiers tokens) :
    r.tokens = uniqueAddresses tokens := by
  simp only [addRouteV3] at hr
  split at hr
  · simp at hr
  · split at hr
    · simp at hr
    · split at hr
      · simp at hr
      · rw [List.mem_map] at hr
        obtain ⟨fs, -, hfs⟩ := hr
        rw [← hfs]

lemma candidateRoutesV3_clean (fromAddr toAddr : String) (mh : Bool) (maxHops : ℕ)
    (inter : List String) (tiers : List ℕ) (r : V3Route)
    (hr : r ∈ candidateRoutesV3 fromAddr toAddr mh maxHops inter tiers) :
    ∃ q, r.tokens = uniqueAddresses q := by
  rw [candidateRoutesV3] at hr
  rcases List.mem_append.mp hr with h | h
  · exact ⟨_, addRouteV3_tokens h⟩
  · split at h
    · rcases List.mem_append.mp h with h2 | h2
      · rw [List.mem_flatMap] at h2
        obtain ⟨m, -, hm⟩ := h2
        exact ⟨_, addRouteV3_tokens hm⟩
      · rw [List.mem_flatMap] at h2
        obtain ⟨ij, -, hm⟩ := h2
        exact ⟨_, addRouteV3_tokens hm⟩
    · simp at h

/-- C9: every enumerated v2 candidate path and every enumerated v3 route token
sequence contains no two consecutive identical asset addresses, identity being
judged after lowercase address normalization; degenerate candidates collapse
rather than being emitted with duplicate hops. -/
theorem claim_c9_no_consecutive_duplicates :
    (∀ (fromAddr toAddr : String) (mh : Bool) (maxHops : ℕ) (inter : List String)
       (p : List String), p ∈ candidatePathsV2 fromAddr toAddr mh maxHops inter →
         List.Chain' (fun x y => lowerStr x ≠ lowerStr y) p)
    ∧ (∀ (fromAddr toAddr : String) (mh : Bool) (maxHops : ℕ) (inter : List String)
         (tiers : List ℕ) (r : V3Route),
         r ∈ candidateRoutesV3 fromAddr toAddr mh maxHops inter tiers →
           List.Chain' (fun x y => lowerStr x ≠ lowerStr y) r.tokens) := by
  constructor
  · intro fromAddr toAddr mh maxHops inter p hp
    obtain ⟨q, hq⟩ := candidatePathsV2_clean fromAddr toAddr mh maxHops inter p hp
    rw [hq]
    exact uniqueAddresses_chain q
  · intro fromAddr toAddr mh maxHops inter tiers r hr
    obtain ⟨q, hq⟩ := candidateRoutesV3_clean fromAddr toAddr mh maxHops inter tiers r hr
    rw [hq]
    exact uniqueAddresses_chain q

theorem claim_c9_witness :
    List.Chain' (fun x y => lowerStr x ≠ lowerStr y) ["0xa", "0xb"]
    ∧ List.Chain' (fun x y => lowerStr x ≠ lowerStr y)
        (V3Route.mk ["0xa", "0xb"] [100]).tokens :=
  ⟨claim_c9_no_consecutive_duplicates.1 "0xa" "0xb" false 2 [] ["0xa", "0xb"] (by decide),
   claim_c9_no_consecutive_duplicates.2 "0xa" "0xb" false 2 [] [100]
     ⟨["0xa", "0xb"], [100]⟩ (by decide)⟩

/-- C4 counterexample: the claim fails as stated.  `"BNB"` and `"WBNB"` are
distinct symbols but resolve to the same WBNB address, so the "direct 2-asset
path" `[resolvedAddress(BNB), resolvedAddress(WBNB)]` collapses under
`uniqueAddresses` to a single asset and is dropped: it is not among the
enumerated candidates (with the default environment, default intermediates,
allowMultiHop = true and default maxHops). -/
theorem claim_c4_counterexample :
    ("BNB" : String) ≠ "WBNB"
    ∧ getKnownTokenAddress (fun _ => none) "BNB" = some DEFAULT_WBNB
    ∧ getKnownTokenAddress (fun _ => none) "WBNB" = some DEFAULT_WBNB
    ∧ [DEFAULT_WBNB, DEFAULT_WBNB] ∉
        candidatePathsV2 DEFAULT_WBNB DEFAULT_WBNB true (clampMaxHops none)
          (resolveSymbolsToAddresses (fun _ => none) defaultIntermediateSymbols) := by
  refine ⟨by decide, by decide, by decide, by decide⟩

/-- C4 amended: for any from/to ADDRESSES that differ after lowercase
normalization (rather than any distinct symbols: aliased symbols such as
BNB/WBNB or BTC/BTCB resolve to equal addresses and collapse), the direct
2-asset path is among the enumerated v2 candidate paths, for every value of
allowMultiHop and maxHops. -/
theorem claim_c4_direct_path_present (fromAddr toAddr : String)
    (h : lowerStr fromAddr ≠ lowerStr toAddr) (mh : Bool) (mx? : Option ℕ)
    (inter : List String) :
    [fromAddr, toAddr] ∈ candidatePathsV2 fromAddr toAddr mh (clampMaxHops mx?) inter := by
  rw [candidatePathsV2, List.mem_filterMap]
  refine ⟨[fromAddr, toAddr], by simp, ?_⟩
  simp only [addPathV2, uniqueAddresses_pair fromAddr toAddr h]
  rw [if_pos]
  constructor
  · simp
  · cases mh
    · simp
    · simp [clampMaxHops]

theorem claim_c4_direct_path_present_witness :
    ["0xa", "0xb"] ∈ candidatePathsV2 "0xa" "0xb" true (clampMaxHops none) ["0xa"] :=
  claim_c4_direct_path_present "0xa" "0xb" (by decide) true none ["0xa"]

lemma aggregator_c2 {α : Type} (evalR evalS : α → ℕ → ℕ) (cands : List α)
    (sp : Bool) (a : ℕ) :
    ((∃ e, quoteBestCore evalS (rankEntries (viableResults evalR cands a)) sp a = .error e)
       ↔ ∀ c ∈ cands, evalR c a = 0)
    ∧ (∀ e ∈ rankEntries (viableResults evalR cands a),
         0 < e.out ∧ e.route ∈ cands ∧ e.out = evalR e.route a)
    ∧ (∀ q, quoteBestCore evalS (rankEntries (viableResults evalR cands a)) sp a = .ok q →
         0 < q.amountOutRaw) := by
  refine ⟨?_, ?_, ?_⟩
  · rw [quoteBestCore_error_iff, rankEntries_eq_nil_iff, viableResults_eq_nil_iff]
  · intro e he
    exact viableResults_mem ((rankEntries_perm _).mem_iff.mp he)
  · intro q hq
    exact quoteBestCore_ok_pos
      (fun e he => (viableResults_mem ((rankEntries_perm _).mem_iff.mp he)).1) hq

/-- C2: a candidate whose evaluation fails or returns zero output is excluded
from the ranked list; the no-route-found error is raised exactly when every
candidate evaluates to zero; a returned quote never has `amountOutRaw = 0`.
Stated for both `quotePcsV2BestExactIn` and `quotePcsV3BestExactIn`. -/
theorem claim_c2_zero_routes_excluded :
    (∀ (f : List String → ℕ → ℕ) (fromAddr toAddr : String) (mh : Bool)
       (mx? : Option ℕ) (inter : List String) (allowSplit : Bool) (a : ℕ),
       ((∃ e, quotePcsV2BestExactIn f fromAddr toAddr mh mx? inter allowSplit a = .error e)
          ↔ ∀ p ∈ candidatePathsV2 fromAddr toAddr mh (clampMaxHops mx?) inter, f p a = 0)
       ∧ (∀ e ∈ rankedV2 f fromAddr toAddr mh mx? inter a,
            0 < e.out
            ∧ e.route ∈ candidatePathsV2 fromAddr toAddr mh (clampMaxHops mx?) inter
            ∧ e.out = f e.route a)
       ∧ (∀ q, quotePcsV2BestExactIn f fromAddr toAddr mh mx? inter allowSplit a = .ok q →
            0 < q.amountOutRaw))
    ∧ (∀ (fS : String → String → ℕ → ℕ → ℕ) (fM : String → ℕ → ℕ)
         (fromAddr toAddr : String) (mh : Bool) (mx? : Option ℕ) (inter : List String)
         (ft? : Option (List ℕ)) (allowSplit : Bool) (a : ℕ),
       ((∃ e, quotePcsV3BestExactIn fS fM fromAddr toAddr mh mx? inter ft? allowSplit a
            = .error e)
          ↔ ∀ r ∈ candidateRoutesV3 fromAddr toAddr mh (clampMaxHops mx?) inter
              (resolveFeeTiers ft?), evalRouteV3 fS fM r a = 0)
       ∧ (∀ e ∈ rankedV3 fS fM fromAddr toAddr mh mx? inter ft? a,
            0 < e.out
            ∧ e.route ∈ candidateRoutesV3 fromAddr toAddr mh (clampMaxHops mx?) inter
                (resolveFeeTiers ft?)
            ∧ e.out = evalRouteV3 fS fM e.route a)
       ∧ (∀ q, quotePcsV3BestExactIn fS fM fromAddr toAddr mh mx? inter ft? allowSplit a
            = .ok q → 0 < q.amountOutRaw)) := by
  constructor
  · intro f fromAddr toAddr mh mx? inter allowSplit a
    exact aggregator_c2 f f
      (candidatePathsV2 fromAddr toAddr mh (clampMaxHops mx?) inter) allowSplit a
  · intro fS fM fromAddr toAddr mh mx? inter ft? allowSplit a
    exact aggregator_c2 (evalRouteV3 fS fM) (evalSplitV3 fS fM)
      (candidateRoutesV3 fromAddr toAddr mh (clampMaxHops mx?) inter (resolveFeeTiers ft?))
      allowSplit a

theorem claim_c2_witness :
    (∃ e, quotePcsV2BestExactIn (fun _ _ => 0) "0xa" "0xb" false none [] false 1 = .error e)
    ∧ (∃ e, quotePcsV3BestExactIn (fun _ _ _ _ => 0) (fun _ _ => 0) "0xa" "0xb" false none []
        (some [7]) false 1 = .error e) :=
  ⟨((claim_c2_zero_routes_excluded.1 (fun _ _ => 0) "0xa" "0xb" false none [] false 1).1).mpr
      (fun p _ => rfl),
   ((claim_c2_zero_routes_excluded.2 (fun _ _ _ _ => 0) (fun _ _ => 0) "0xa" "0xb" false none
      [] (some [7]) false 1).1).mpr (by decide)⟩

/-- C1: with split routing enabled and at least two viable ranked routes, a
split quote is returned only if the best combined output of the 10%-step grid
search strictly exceeds `ranked[0].out` (a tie returns the unsplit best
route), and the returned quote's total `amountOutRaw` is never below the best
single-route output.  Stated for both quoters; `gridBestTop` is the maximal
combined output the grid search can find over the top two ranked routes. -/
theorem claim_c1_split_only_on_strict_gain :
    (∀ (f : List String → ℕ → ℕ) (fromAddr toAddr : String) (mh : Bool)
       (mx? : Option ℕ) (inter : List String) (a : ℕ) (q : LiveQuoteM (List String)),
       quotePcsV2BestExactIn f fromAddr toAddr mh mx? inter true a = .ok q →
       2 ≤ (rankedV2 f fromAddr toAddr mh mx? inter a).length →
       (q.isSplit = true →
          bestSingleOut (rankedV2 f fromAddr toAddr mh mx? inter a)
            < gridBestTop f (rankedV2 f fromAddr toAddr mh mx? inter a) a)
       ∧ bestSingleOut (rankedV2 f fromAddr toAddr mh mx? inter a) ≤ q.amountOutRaw)
    ∧ (∀ (fS : String → String → ℕ → ℕ → ℕ) (fM : String → ℕ → ℕ)
         (fromAddr toAddr : String) (mh : Bool) (mx? : Option ℕ) (inter : List String)
         (ft? : Option (List ℕ)) (a : ℕ) (q : LiveQuoteM V3Route),
       quotePcsV3BestExactIn fS fM fromAddr toAddr mh mx? inter ft? true a = .ok q →
       2 ≤ (rankedV3 fS fM fromAddr toAddr mh mx? inter ft? a).length →
       (q.isSplit = true →
          bestSingleOut (rankedV3 fS fM fromAddr toAddr mh mx? inter ft? a)
            < gridBestTop (evalSplitV3 fS fM)
                (rankedV3 fS fM fromAddr toAddr mh mx? inter ft? a) a)
       ∧ bestSingleOut (rankedV3 fS fM fromAddr toAddr mh mx? inter ft? a)
           ≤ q.amountOutRaw) := by
  constructor
  · intro f fromAddr toAddr mh mx? inter a q hq _
    exact quoteBestCore_split_facts hq
  · intro fS fM fromAddr toAddr mh mx? inter ft? a q hq _
    exact quoteBestCore_split_facts hq

theorem claim_c1_witness :
    (((LiveQuoteM.mk 100 8 true
         [SplitPart.mk 10 5 ["0xa", "0xb"], SplitPart.mk 90 3 ["0xa", "0xm", "0xb"]]
         none).isSplit = true →
        bestSingleOut (rankedV2
            (fun p _ => if p = ["0xa", "0xb"] then 5
              else if p = ["0xa", "0xm", "0xb"] then 3 else 0)
            "0xa" "0xb" true none ["0xm"] 100)
          < gridBestTop
              (fun p _ => if p = ["0xa", "0xb"] then 5
                else if p = ["0xa", "0xm", "0xb"] then 3 else 0)
              (rankedV2
                (fun p _ => if p = ["0xa", "0xb"] then 5
                  else if p = ["0xa", "0xm", "0xb"] then 3 else 0)
                "0xa" "0xb" true none ["0xm"] 100) 100)
      ∧ bestSingleOut (rankedV2
            (fun p _ => if p = ["0xa", "0xb"] then 5
              else if p = ["0xa", "0xm", "0xb"] then 3 else 0)
            "0xa" "0xb" true none ["0xm"] 100)
          ≤ (LiveQuoteM.mk 100 8 true
              [SplitPart.mk 10 5 ["0xa", "0xb"], SplitPart.mk 90 3 ["0xa", "0xm", "0xb"]]
              none).amountOutRaw)
    ∧ (((LiveQuoteM.mk 100 16 true
          [SplitPart.mk 10 9 (V3Route.mk ["0xa", "0xb"] [9]),
           SplitPart.mk 90 7 (V3Route.mk ["0xa", "0xb"] [7])] none).isSplit = true →
        bestSingleOut (rankedV3 (fun _ _ fee _ => fee) (fun _ _ => 0)
            "0xa" "0xb" false none [] (some [7, 9]) 100)
          < gridBestTop (evalSplitV3 (fun _ _ fee _ => fee) (fun _ _ => 0))
              (rankedV3 (fun _ _ fee _ => fee) (fun _ _ => 0)
                "0xa" "0xb" false none [] (some [7, 9]) 100) 100)
      ∧ bestSingleOut (rankedV3 (fun _ _ fee _ => fee) (fun _ _ => 0)
            "0xa" "0xb" false none [] (some [7, 9]) 100)
          ≤ (LiveQuoteM.mk 100 16 true
              [SplitPart.mk 10 9 (V3Route.mk ["0xa", "0xb"] [9]),
               SplitPart.mk 90 7 (V3Route.mk ["0xa", "0xb"] [7])] none).amountOutRaw) :=
  ⟨claim_c1_split_only_on_strict_gain.1
      (fun p _ => if p = ["0xa", "0xb"] then 5
        else if p = ["0xa", "0xm", "0xb"] then 3 else 0)
      "0xa" "0xb" true none ["0xm"] 100
      (LiveQuoteM.mk 100 8 true
        [SplitPart.mk 10 5 ["0xa", "0xb"], SplitPart.mk 90 3 ["0xa", "0xm", "0xb"]] none)
      rfl (by decide),
   claim_c1_split_only_on_strict_gain.2 (fun _ _ fee _ => fee) (fun _ _ => 0)
      "0xa" "0xb" false none [] (some [7, 9]) 100
      (LiveQuoteM.mk 100 16 true
        [SplitPart.mk 10 9 (V3Route.mk ["0xa", "0xb"] [9]),
         SplitPart.mk 90 7 (V3Route.mk ["0xa", "0xb"] [7])] none)
      rfl (by decide)⟩

/-- C6: for every split quote produced by the v2 or v3 quoter, the two part
input amounts sum exactly to the requested `amountInRaw`
(`in1 = amountInRaw * bestPercent / 100`, `in2 = amountInRaw - in1`). -/
theorem claim_c6_split_parts_sum_exact :
    (∀ (f : List String → ℕ → ℕ) (fromAddr toAddr : String) (mh : Bool)
       (mx? : Option ℕ) (inter : List String) (allowSplit : Bool) (a : ℕ)
       (q : LiveQuoteM (List String)),
       quotePcsV2BestExactIn f fromAddr toAddr mh mx? inter allowSplit a = .ok q →
       q.isSplit = true →
       ∃ p1 p2, q.parts = [p1, p2] ∧ p1.amountInRaw + p2.amountInRaw = a)
    ∧ (∀ (fS : String → String → ℕ → ℕ → ℕ) (fM : String → ℕ → ℕ)
         (fromAddr toAddr : String) (mh : Bool) (mx? : Option ℕ) (inter : List String)
         (ft? : Option (List ℕ)) (allowSplit : Bool) (a : ℕ) (q : LiveQuoteM V3Route),
       quotePcsV3BestExactIn fS fM fromAddr toAddr mh mx? inter ft? allowSplit a = .ok q →
       q.isSplit = true →
       ∃ p1 p2, q.parts = [p1, p2] ∧ p1.amountInRaw + p2.amountInRaw = a) := by
  constructor
  · intro f fromAddr toAddr mh mx? inter allowSplit a q hq hs
    exact quoteBestCore_split_parts hq hs
  · intro fS fM fromAddr toAddr mh mx? inter ft? allowSplit a q hq hs
    exact quoteBestCore_split_parts hq hs

theorem claim_c6_witness :
    (∃ p1 p2, (LiveQuoteM.mk 100 8 true
        [SplitPart.mk 10 5 ["0xa", "0xb"], SplitPart.mk 90 3 ["0xa", "0xm", "0xb"]]
        none).parts = [p1, p2] ∧ p1.amountInRaw + p2.amountInRaw = 100)
    ∧ (∃ p1 p2, (LiveQuoteM.mk 100 16 true
        [SplitPart.mk 10 9 (V3Route.mk ["0xa", "0xb"] [9]),
         SplitPart.mk 90 7 (V3Route.mk ["0xa", "0xb"] [7])] none).parts = [p1, p2]
        ∧ p1.amountInRaw + p2.amountInRaw = 100) :=
  ⟨claim_c6_split_parts_sum_exact.1
      (fun p _ => if p = ["0xa", "0xb"] then 5
        else if p = ["0xa", "0xm", "0xb"] then 3 else 0)
      "0xa" "0xb" true none ["0xm"] true 100
      (LiveQuoteM.mk 100 8 true
        [SplitPart.mk 10 5 ["0xa", "0xb"], SplitPart.mk 90 3 ["0xa", "0xm", "0xb"]] none)
      rfl rfl,
   claim_c6_split_parts_sum_exact.2 (fun _ _ fee _ => fee) (fun _ _ => 0)
      "0xa" "0xb" false none [] (some [7, 9]) true 100
      (LiveQuoteM.mk 100 16 true
        [SplitPart.mk 10 9 (V3Route.mk ["0xa", "0xb"] [9]),
         SplitPart.mk 90 7 (V3Route.mk ["0xa", "0xb"] [7])] none)
      rfl rfl⟩

/-- C3 counterexample: the claim's tie-break (fewer hops before first-seen
order on equal `amountOutRaw`) does NOT hold on the code.  The comparator at
swap.ts line 280 compares only `out`, so ties keep first-seen enumeration
order.  With from = `0xa`, to = `0xc`, intermediates `[0xw, 0xt, 0xc]` and
maxHops = 4, the pair loop re-emits the collapsed duplicate `[0xa,0xw,0xc]`
AFTER the 4-token path `[0xa,0xw,0xt,0xc]`; giving both paths output 100
produces a ranked list in which a 4-token entry precedes an equal-output
3-token entry, contradicting the claimed ordering (which requires that on
equal output an earlier entry never has more hops). -/
theorem claim_c3_counterexample :
    ¬ List.Pairwise
        (fun x y : RankedEntry (List String) =>
          x.out = y.out → x.route.length ≤ y.route.length)
        (rankedV2
          (fun p _ =>
            if p = ["0xa", "0xw", "0xc"] ∨ p = ["0xa", "0xw", "0xt", "0xc"] then 100 else 0)
          "0xa" "0xc" true (some 4) ["0xw", "0xt", "0xc"] 1) := by
  decide

/-- C3 amended: the ranking of viable candidate quotes is ordered by
`amountOutRaw` descending with ties broken ONLY by first-seen order (JS
stable sort with an output-only comparator) - hop count is not a tiebreaker -
and it is a permutation of the viable results; being a pure function of the
venue outputs, repeated invocations with the same outputs produce the
identical ordering.  Stated for both quoters: (i) permutation, (ii) sorted by
output descending, (iii) stability: for every output value, the ranked
entries with that output appear in exactly their first-seen order. -/
theorem claim_c3_ranking_stable_desc :
    (∀ (f : List String → ℕ → ℕ) (fromAddr toAddr : String) (mh : Bool)
       (mx? : Option ℕ) (inter : List String) (a : ℕ),
       (rankedV2 f fromAddr toAddr mh mx? inter a).Perm
         (viableResults f (candidatePathsV2 fromAddr toAddr mh (clampMaxHops mx?) inter) a)
       ∧ List.Sorted rankOut (rankedV2 f fromAddr toAddr mh mx? inter a)
       ∧ ∀ v, (rankedV2 f fromAddr toAddr mh mx? inter a).filter (fun e => e.out == v)
           = (viableResults f
                (candidatePathsV2 fromAddr toAddr mh (clampMaxHops mx?) inter) a).filter
               (fun e => e.out == v))
    ∧ (∀ (fS : String → String → ℕ → ℕ → ℕ) (fM : String → ℕ → ℕ)
         (fromAddr toAddr : String) (mh : Bool) (mx? : Option ℕ) (inter : List String)
         (ft? : Option (List ℕ)) (a : ℕ),
       (rankedV3 fS fM fromAddr toAddr mh mx? inter ft? a).Perm
         (viableResults (evalRouteV3 fS fM)
           (candidateRoutesV3 fromAddr toAddr mh (clampMaxHops mx?) inter
             (resolveFeeTiers ft?)) a)
       ∧ List.Sorted rankOut (rankedV3 fS fM fromAddr toAddr mh mx? inter ft? a)
       ∧ ∀ v, (rankedV3 fS fM fromAddr toAddr mh mx? inter ft? a).filter
             (fun e => e.out == v)
           = (viableResults (evalRouteV3 fS fM)
               (candidateRoutesV3 fromAddr toAddr mh (clampMaxHops mx?) inter
                 (resolveFeeTiers ft?)) a).filter (fun e => e.out == v)) := by
  constructor
  · intro f fromAddr toAddr mh mx? inter a
    exact ⟨rankEntries_perm _, rankEntries_sorted _, fun v => rankEntries_stable _ v⟩
  · intro fS fM fromAddr toAddr mh mx? inter ft? a
    exact ⟨rankEntries_perm _, rankEntries_sorted _, fun v => rankEntries_stable _ v⟩

/-- C5 counterexample: the round-trip claim fails for arbitrary token
sequences.  `encodeV3Path` lowercases every address (line 402/406), so two
distinct token lists differing only in hex-letter case encode to the same
bytes; no decoder whatsoever can map that common encoding back to both
originals, hence `decode(encode(tokens, fees)) = (tokens, fees)` cannot hold
for every token sequence of length ≥ 2. -/
theorem claim_c5_counterexample :
    encodeV3Path ["0xABABABABABABABABABABABABABABABABABABABAB", "0xCDCDCDCDCDCDCDCDCDCDCDCDCDCDCDCDCDCDCDCD"] [3]
      = encodeV3Path ["0xabababababababababababababababababababab", "0xcdcdcdcdcdcdcdcdcdcdcdcdcdcdcdcdcdcdcdcd"] [3]
    ∧ (["0xABABABABABABABABABABABABABABABABABABABAB", "0xCDCDCDCDCDCDCDCDCDCDCDCDCDCDCDCDCDCDCDCD"] : List String)
      ≠ ["0xabababababababababababababababababababab", "0xcdcdcdcdcdcdcdcdcdcdcdcdcdcdcdcdcdcdcdcd"] := by
  constructor
  · rfl
  · decide

/-- C5 amended: the encoder produces the byte-level interleaved format
`asset0 | fee0 | asset1 | fee1 | ...` (20-byte addresses as 40 lowercase hex
chars, 3-byte fees as 6 hex chars; this is `encodeV3PathStr`), and the
encoder/decoder pair round-trips exactly for every token sequence of length
≥ 2 of NORMALIZED addresses (`0x` + 40 lowercase hex digits - the encoder
lowercases, so non-normalized input cannot round-trip) with fees of length
`tokens.length - 1`, each fee fitting in 3 bytes (`< 16^6`; a larger fee
would overflow its 6-hex-char field). -/
theorem claim_c5_roundtrip (tokens : List String) (fees : List ℕ)
    (h2 : 2 ≤ tokens.length) (hlen : fees.length = tokens.length - 1)
    (hnorm : ∀ t ∈ tokens, IsNormAddr t) (hfee : ∀ f ∈ fees, f < 16 ^ 6) :
    encodeV3Path tokens fees = .ok (encodeV3PathStr tokens fees)
    ∧ decodeV3Path (encodeV3PathStr tokens fees) = some (tokens, fees) := by
  constructor
  · rw [encodeV3Path, if_neg (by omega), if_neg (by omega)]
  · exact decodeV3Path_encodeV3PathStr tokens fees h2 hlen hnorm hfee

theorem claim_c5_roundtrip_witness :
    encodeV3Path ["0xabababababababababababababababababababab", "0xcdcdcdcdcdcdcdcdcdcdcdcdcdcdcdcdcdcdcdcd"] [500]
      = .ok (encodeV3PathStr ["0xabababababababababababababababababababab", "0xcdcdcdcdcdcdcdcdcdcdcdcdcdcdcdcdcdcdcdcd"] [500])
    ∧ decodeV3Path (encodeV3PathStr ["0xabababababababababababababababababababab", "0xcdcdcdcdcdcdcdcdcdcdcdcdcdcdcdcdcdcdcdcd"] [500])
      = some (["0xabababababababababababababababababababab", "0xcdcdcdcdcdcdcdcdcdcdcdcdcdcdcdcdcdcdcdcd"], [500]) :=
  claim_c5_roundtrip ["0xabababababababababababababababababababab", "0xcdcdcdcdcdcdcdcdcdcdcdcdcdcdcdcdcdcdcdcd"] [500]
    (by decide) (by decide) (by decide) (by decide)

lemma int_log2_eq {r : ℚ} {k : ℤ} (hr : 0 < r) (h1 : ((2 : ℕ) : ℚ) ^ k ≤ r)
    (h2 : r < ((2 : ℕ) : ℚ) ^ (k + 1)) : Int.log 2 r = k := by
  have hle : k ≤ Int.log 2 r := (Int.zpow_le_iff_le_log (by norm_num) hr).mp h1
  have hlt : Int.log 2 r < k + 1 := (Int.lt_zpow_iff_log_lt (by norm_num) hr).mp h2
  omega

lemma roundAtExp_down (k : ℤ) (q : ℚ) (fl : ℤ)
    (hfl : ⌊q / 2 ^ k⌋ = fl) (hfrac : q / 2 ^ k - fl < 1 / 2) :
    roundAtExp k q = (fl : ℚ) * 2 ^ k := by
  simp only [roundAtExp, hfl]
  rw [if_pos hfrac]

lemma roundAtExp_up (k : ℤ) (q : ℚ) (fl : ℤ)
    (hfl : ⌊q / 2 ^ k⌋ = fl) (hfrac : 1 / 2 < q / 2 ^ k - fl) :
    roundAtExp k q = ((fl : ℚ) + 1) * 2 ^ k := by
  simp only [roundAtExp, hfl]
  rw [if_neg (by linarith), if_pos hfrac]
  push_cast
  ring

lemma roundDouble_eq (q : ℚ) (k : ℤ) (hq : q ≠ 0) (hlog : Int.log 2 |q| - 52 = k) :
    roundDouble q = roundAtExp k q := by
  rw [roundDouble, if_neg hq, hlog]

/-- `0.01` is not a dyadic rational: dividing the double `1` by `100` rounds
up to the double `5764607523034235 × 2⁻⁵⁹`. -/
lemma roundDouble_one_div_100 :
    roundDouble ((1 : ℚ) / 100) = 5764607523034235 / 2 ^ 59 := by
  have hlog : Int.log 2 |(1 : ℚ) / 100| - 52 = -59 := by
    rw [abs_of_pos (by norm_num),
      int_log2_eq (r := (1 : ℚ) / 100) (k := -7) (by norm_num) (by norm_num) (by norm_num)]
    decide
  rw [roundDouble_eq _ _ (by norm_num) hlog,
    roundAtExp_up (-59) _ 5764607523034234
      (by rw [zpow_neg]; norm_num) (by rw [zpow_neg]; push_cast; norm_num)]
  rw [zpow_neg]
  norm_num

/-- Multiplying the double nearest `0.01` by `10⁶` rounds to exactly `10000`
(the exact product `10000.0000000000002…` is within half an ulp of `10000`). -/
lemma roundDouble_d01_mul_1e6 :
    roundDouble ((5764607523034235 : ℚ) / 2 ^ 59 * 1000000) = 10000 := by
  have hlog : Int.log 2 |(5764607523034235 : ℚ) / 2 ^ 59 * 1000000| - 52 = -39 := by
    rw [abs_of_pos (by norm_num),
      int_log2_eq (r := (5764607523034235 : ℚ) / 2 ^ 59 * 1000000) (k := 13)
        (by norm_num) (by norm_num) (by norm_num)]
    decide
  rw [roundDouble_eq _ _ (by norm_num) hlog,
    roundAtExp_down (-39) _ 5497558138880000
      (by rw [zpow_neg]; norm_num) (by rw [zpow_neg]; push_cast; norm_num)]
  rw [zpow_neg]
  norm_num

/-- Dividing the double nearest `0.03` (= `1080863910568919 × 2⁻⁵⁵`, which is
slightly BELOW `0.03`) by `100` rounds to `5534023222112865 × 2⁻⁶⁴`. -/
lemma roundDouble_d003_div_100 :
    roundDouble ((1080863910568919 : ℚ) / 2 ^ 55 / 100) = 5534023222112865 / 2 ^ 64 := by
  have hlog : Int.log 2 |(1080863910568919 : ℚ) / 2 ^ 55 / 100| - 52 = -64 := by
    rw [abs_of_pos (by norm_num),
      int_log2_eq (r := (1080863910568919 : ℚ) / 2 ^ 55 / 100) (k := -12)
        (by norm_num) (by norm_num) (by norm_num)]
    decide
  rw [roundDouble_eq _ _ (by norm_num) hlog,
    roundAtExp_down (-64) _ 5534023222112865
      (by rw [zpow_neg]; norm_num) (by rw [zpow_neg]; push_cast; norm_num)]
  rw [zpow_neg]
  norm_num

/-- Multiplying that quotient by `10⁶` rounds UP to exactly `300` (the exact
product `299.99999999999999xx…` lands above the midpoint of its ulp), even
though the exact real product is strictly below `300`. -/
lemma roundDouble_d1_mul_1e6 :
    roundDouble ((5534023222112865 : ℚ) / 2 ^ 64 * 1000000) = 300 := by
  have hlog : Int.log 2 |(5534023222112865 : ℚ) / 2 ^ 64 * 1000000| - 52 = -44 := by
    rw [abs_of_pos (by norm_num),
      int_log2_eq (r := (5534023222112865 : ℚ) / 2 ^ 64 * 1000000) (k := 8)
        (by norm_num) (by norm_num) (by norm_num)]
    decide
  rw [roundDouble_eq _ _ (by norm_num) hlog,
    roundAtExp_up (-44) _ 5277655813324799
      (by rw [zpow_neg]; norm_num) (by rw [zpow_neg]; push_cast; norm_num)]
  rw [zpow_neg]
  norm_num

/-- C7 counterexample: the claim's exact integer formula is false of the
program.  The code computes `Math.floor` of the IEEE-754 DOUBLE product
`(slip / 100) * 1e6`, not of the exact rational product.  At the supplied
slippage `1080863910568919 × 2⁻⁵⁵` — the double a caller passing `0.03`
supplies, slightly below `3/100` — the double chain rounds up to exactly
`300` and the code returns `amountOutMin = 999700` (factor `999700`), while
the claim's formula `floor(slippagePercent/100 × 10⁶) = 299` gives `999701`
(on `amountOutRaw = 1,000,000`). -/
theorem claim_c7_counterexample :
    (0 : ℚ) < 1080863910568919 / 2 ^ 55
    ∧ applySlippage 1000000 ((1080863910568919 : ℚ) / 2 ^ 55) = some 999700
    ∧ specAmountOutMin 1000000 ((1080863910568919 : ℚ) / 2 ^ 55) = 999701 := by
  refine ⟨by norm_num, ?_, ?_⟩
  · rw [applySlippage, if_pos (by norm_num)]
    rw [slippageAmountOutMin]
    simp only [roundDouble_d003_div_100, roundDouble_d1_mul_1e6]
    norm_num
    decide
  · rw [specAmountOutMin]
    have hf : ⌊(1080863910568919 : ℚ) / 2 ^ 55 / 100 * 1000000⌋ = 299 := by norm_num
    rw [hf]
    decide

/-- C7 amended: whenever a slippage tolerance `> 0` is supplied, the computed
minimum acceptable output equals `amountOutRaw × (1,000,000 −
Math.floor(fl(fl(slippagePercent/100) × 1,000,000))) / 1,000,000` where `fl`
is IEEE-754 double rounding — the floor is taken of the double-precision
product, which can differ from `floor(slippagePercent/100 × 1,000,000)` in
exact arithmetic (see the counterexample); the claim's scenario still holds:
`slippagePercent = 1` on `amountOutRaw = 1,000,000` yields `990,000`, because
the double product of `fl(1/100)` and `10⁶` rounds to exactly `10000`. -/
theorem claim_c7_slippage_formula :
    (∀ (outRaw : ℕ) (slip : ℚ), 0 < slip →
       applySlippage outRaw slip
         = some (Int.tdiv ((outRaw : ℤ)
             * (1000000 - ⌊roundDouble (roundDouble (slip / 100) * 1000000)⌋)) 1000000))
    ∧ slippageAmountOutMin 1000000 1 = 990000 := by
  constructor
  · intro outRaw slip h
    rw [applySlippage, if_pos h]
    rfl
  · rw [slippageAmountOutMin]
    simp only [roundDouble_one_div_100, roundDouble_d01_mul_1e6]
    norm_num
    decide

theorem claim_c7_witness :
    applySlippage 1000000 1
      = some (Int.tdiv (((1000000 : ℕ) : ℤ)
          * (1000000 - ⌊roundDouble (roundDouble ((1 : ℚ) / 100) * 1000000)⌋)) 1000000) :=
  claim_c7_slippage_formula.1 1000000 1 (by norm_num)

/-- C8: `quotePancakeBest` combines the settled results of the two venue
families: the failure of either family never blocks the other (a single
fulfilled family is returned as-is with its provider tag), the error is
raised exactly when both families failed, and when both succeed the returned
quote carries the larger `amountOutRaw`.  (The two families are launched
concurrently via `Promise.allSettled`; this theorem states the functional
content of the combination.) -/
theorem claim_c8_pancake_best :
    (∀ (ok2 : Option (LiveQuoteM (List String))) (ok3 : Option (LiveQuoteM V3Route)),
       ((∃ e, quotePancakeBest ok2 ok3 = .error e) ↔ ok2 = none ∧ ok3 = none))
    ∧ (∀ q2, quotePancakeBest (some q2) none = .ok (.v2 q2))
    ∧ (∀ q3, quotePancakeBest none (some q3) = .ok (.v3 q3))
    ∧ (∀ (q2 : LiveQuoteM (List String)) (q3 : LiveQuoteM V3Route) (c : PancakeChoice),
         quotePancakeBest (some q2) (some q3) = .ok c →
         c.amountOutRaw = max q2.amountOutRaw q3.amountOutRaw) := by
  refine ⟨?_, fun q2 => rfl, fun q3 => rfl, ?_⟩
  · intro ok2 ok3
    match ok2, ok3 with
    | none, none => simp [quotePancakeBest]
    | some q2, none => simp [quotePancakeBest]
    | none, some q3 => simp [quotePancakeBest]
    | some q2, some q3 =>
      simp only [quotePancakeBest]
      split <;> simp
  · intro q2 q3 c hc
    simp only [quotePancakeBest] at hc
    split at hc <;> rename_i hcmp <;> cases hc <;>
      simp [PancakeChoice.amountOutRaw] <;> omega

theorem claim_c8_witness :
    (∃ e, quotePancakeBest none none = .error e)
    ∧ quotePancakeBest (some (LiveQuoteM.mk 1 5 false [] none)) none
        = .ok (.v2 (LiveQuoteM.mk 1 5 false [] none))
    ∧ quotePancakeBest none (some (LiveQuoteM.mk 1 7 false [] none))
        = .ok (.v3 (LiveQuoteM.mk 1 7 false [] none))
    ∧ (PancakeChoice.v3 (LiveQuoteM.mk 1 7 false [] none)).amountOutRaw = max 5 7 :=
  ⟨(claim_c8_pancake_best.1 none none).mpr ⟨rfl, rfl⟩,
   claim_c8_pancake_best.2.1 (LiveQuoteM.mk 1 5 false [] none),
   claim_c8_pancake_best.2.2.1 (LiveQuoteM.mk 1 7 false [] none),
   claim_c8_pancake_best.2.2.2 (LiveQuoteM.mk 1 5 false [] none)
     (LiveQuoteM.mk 1 7 false [] none)
     (PancakeChoice.v3 (LiveQuoteM.mk 1 7 false [] none)) rfl⟩

/-- C10 (implicit): when both venue families succeed with equal raw outputs,
`quotePancakeBest` returns the v2 quote; the v3 quote is chosen iff its
`amountOutRaw` is strictly larger (`a3 > a2 ? v3 : v2`). -/
theorem claim_c10_tie_prefers_v2 :
    (∀ (q2 : LiveQuoteM (List String)) (q3 : LiveQuoteM V3Route),
       q2.amountOutRaw = q3.amountOutRaw →
       quotePancakeBest (some q2) (some q3) = .ok (.v2 q2))
    ∧ (∀ (q2 : LiveQuoteM (List String)) (q3 : LiveQuoteM V3Route),
       quotePancakeBest (some q2) (some q3) = .ok (.v3 q3)
         ↔ q2.amountOutRaw < q3.amountOutRaw) := by
  constructor
  · intro q2 q3 h
    simp only [quotePancakeBest]
    rw [if_neg (by omega)]
  · intro q2 q3
    constructor
    · intro h
      simp only [quotePancakeBest] at h
      by_contra hge
      rw [if_neg hge] at h
      simp at h
    · intro h
      simp only [quotePancakeBest]
      rw [if_pos h]

theorem claim_c10_witness :
    quotePancakeBest (some (LiveQuoteM.mk 1 5 false [] none))
        (some (LiveQuoteM.mk 1 5 false [] none))
      = .ok (.v2 (LiveQuoteM.mk 1 5 false [] none))
    ∧ (quotePancakeBest (some (LiveQuoteM.mk 1 5 false [] none))
         (some (LiveQuoteM.mk 1 7 false [] none))
       = .ok (.v3 (LiveQuoteM.mk 1 7 false [] none))
       ↔ (LiveQuoteM.mk 1 5 false [] (none : Option (List String))).amountOutRaw
           < (LiveQuoteM.mk 1 7 false [] (none : Option V3Route)).amountOutRaw) :=
  ⟨claim_c10_tie_prefers_v2.1 (LiveQuoteM.mk 1 5 false [] none)
     (LiveQuoteM.mk 1 5 false [] none) rfl,
   claim_c10_tie_prefers_v2.2 (LiveQuoteM.mk 1 5 false [] none)
     (LiveQuoteM.mk 1 7 false [] none)⟩
